import Mathlib

/-!
Shallow embedding of the noseburn Moostar execution engine
(`src/moostar.rs`): the compiler (`Runner::process`, `fetch_identifier`),
the runner state (`Runner`), initialization/reset, the step engine
(`Runner::step` and its helpers) and the introspection queries, together
with theorems checking the natural-language specification against them.

Modelling conventions: machine integers (`usize`, `u8`) are `Nat` with an
explicit `% 256` where the source uses wrapping `u8` arithmetic;
`HashMap`/`VecDeque` are association lists / lists; fallible operations
(`unwrap` panics, `Result`) are `Except`; the source's unbounded loops are
given explicit fuel that provably exceeds the number of iterations the
source can perform (every iteration consumes at least one character /
advances the instruction index).  Tape-pointer underflow (MoveLeft at
position 0), left undefined by the reference code (debug-mode `usize`
underflow panic), is modelled with truncated `Nat` subtraction; no theorem
below depends on that choice.
-/

namespace Moostar

/-- Rust `char::is_whitespace` (Unicode `White_Space`). -/
def isRustWhitespace (c : Char) : Bool :=
  let n := c.toNat
  (9 ≤ n && n ≤ 13) || n = 32 || n = 133 || n = 160 || n = 0x1680 ||
    (0x2000 ≤ n && n ≤ 0x200A) || n = 0x2028 || n = 0x2029 ||
    n = 0x202F || n = 0x205F || n = 0x3000

/-- Rust `char::is_ascii_lowercase`. -/
def isAsciiLowercase (c : Char) : Bool :=
  'a' ≤ c && c ≤ 'z'

/-- Rust `c.is_ascii_alphanumeric() || c == '_'`, the identifier-continuation
test of `fetch_identifier`. -/
def isIdentChar (c : Char) : Bool :=
  ('a' ≤ c && c ≤ 'z') || ('A' ≤ c && c ≤ 'Z') || ('0' ≤ c && c ≤ '9') || c = '_'

/-- The instruction set (`enum MooInst`). -/
inductive MooInst where
  | plus
  | minus
  | left
  | right
  | inp
  | out
  | openLoop
  | closeLoop
  | nop (c : Char)
  | call (n : Nat)
  | funcStart (n : Nat)
  | funcEnd (n : Nat)
  | metaJump
  | halt
deriving DecidableEq, Repr

/-- `type SpannedInstruction = (MooInst, (usize, usize))`. -/
abbrev SpannedInstruction := MooInst × (Nat × Nat)

/-- Lookup in an association list with `Nat` keys (`HashMap::get`). -/
def assocGet (m : List (Nat × Nat)) (k : Nat) : Option Nat :=
  (m.find? fun p => p.1 == k).map Prod.snd

/-- Insert-or-replace in an association list with `Nat` keys
(`HashMap::insert`). -/
def assocInsert (m : List (Nat × Nat)) (k v : Nat) : List (Nat × Nat) :=
  match m with
  | [] => [(k, v)]
  | (k', v') :: rest =>
    if k' = k then (k, v) :: rest else (k', v') :: assocInsert rest k v

/-- Lookup in an association list with `String` keys
(`method_lookup.get`). -/
def strLookup (m : List (String × Nat)) (k : String) : Option Nat :=
  (m.find? fun p => p.1 == k).map Prod.snd

/-- `fetch_identifier`: skip whitespace, require a lowercase ASCII first
character, take the alphanumeric/underscore identifier, skip trailing
whitespace; returns the identifier, the number of characters eaten and the
remaining characters. -/
def fetch_identifier (chars : List Char) :
    Except String (String × Nat × List Char) :=
  let ws_before := chars.takeWhile isRustWhitespace
  let at_ident := chars.dropWhile isRustWhitespace
  match at_ident with
  | [] => .error "Empty identifier"
  | c :: _ =>
    if isAsciiLowercase c then
      let ident_chars := at_ident.takeWhile isIdentChar
      let after := at_ident.dropWhile isIdentChar
      let ws_after := after.takeWhile isRustWhitespace
      let rest := after.dropWhile isRustWhitespace
      .ok (String.mk ident_chars,
           ws_before.length + ident_chars.length + ws_after.length, rest)
    else .error "First character in identifier is not lowercase"

/-- Prepend a freshly produced instruction to the rest of the compiled
output (models `program_out.push` before the remainder of the scan). -/
def emit (i : SpannedInstruction)
    (k : Except String (List SpannedInstruction × List (Nat × Nat))) :
    Except String (List SpannedInstruction × List (Nat × Nat)) :=
  k.map fun pr => (i :: pr.1, pr.2)

/-- The scan loop of `Runner::process`, carrying `method_lookup`,
`method_index`, the current output length, the running source position
`pos`, the currently open definition and the remaining characters.  The
fuel only bounds the iteration count; every iteration consumes at least
one character, so `length + 1` fuel (as supplied by `process`) is never
exhausted. -/
def processAuxF :
    Nat → List (String × Nat) → List (Nat × Nat) → Nat → Nat → Option Nat →
    List Char → Except String (List SpannedInstruction × List (Nat × Nat))
  | 0, _, _, _, _, _, _ => .error "out of fuel"
  | _ + 1, _, method_index, _, pos, _, [] =>
    .ok ([(MooInst.halt, (pos, 1))], method_index)
  | fuel + 1, method_lookup, method_index, out_len, pos, current_def,
      c :: rest =>
    if c = '+' then
      emit (MooInst.plus, (pos, 1))
        (processAuxF fuel method_lookup method_index (out_len + 1) (pos + 1)
          current_def rest)
    else if c = '-' then
      emit (MooInst.minus, (pos, 1))
        (processAuxF fuel method_lookup method_index (out_len + 1) (pos + 1)
          current_def rest)
    else if c = '>' then
      emit (MooInst.right, (pos, 1))
        (processAuxF fuel method_lookup method_index (out_len + 1) (pos + 1)
          current_def rest)
    else if c = '<' then
      emit (MooInst.left, (pos, 1))
        (processAuxF fuel method_lookup method_index (out_len + 1) (pos + 1)
          current_def rest)
    else if c = '.' then
      emit (MooInst.out, (pos, 1))
        (processAuxF fuel method_lookup method_index (out_len + 1) (pos + 1)
          current_def rest)
    else if c = ',' then
      emit (MooInst.inp, (pos, 1))
        (processAuxF fuel method_lookup method_index (out_len + 1) (pos + 1)
          current_def rest)
    else if c = '[' then
      emit (MooInst.openLoop, (pos, 1))
        (processAuxF fuel method_lookup method_index (out_len + 1) (pos + 1)
          current_def rest)
    else if c = ']' then
      emit (MooInst.closeLoop, (pos, 1))
        (processAuxF fuel method_lookup method_index (out_len + 1) (pos + 1)
          current_def rest)
    else if c = '(' then
      if current_def.isSome then
        .error "Re-opening definition in one another"
      else
        match fetch_identifier rest with
        | .error e => .error e
        | .ok (ident, eaten, after_ident) =>
          match after_ident with
          | g1 :: g2 :: g3 :: body =>
            if g1 = ')' ∧ g2 = ':' ∧ g3 = '{' then
              let code := (strLookup method_lookup ident).getD method_lookup.length
              let method_lookup' :=
                if (strLookup method_lookup ident).isSome then method_lookup
                else method_lookup ++ [(ident, method_lookup.length)]
              emit (MooInst.funcStart code, (pos, 4 + eaten))
                (processAuxF fuel method_lookup'
                  (assocInsert method_index code out_len) (out_len + 1)
                  (pos + 4 + eaten) (some code) body)
            else .error "Expected guard after function declaration header"
          | _ => .error "Expected guard after function declaration header"
    else if c = '}' then
      match current_def with
      | some current =>
        emit (MooInst.funcEnd current, (pos, 1))
          (processAuxF fuel method_lookup method_index (out_len + 1) (pos + 1)
            none rest)
      | none => .error "Ended an unknown function definition"
    else if c = '~' then
      match fetch_identifier rest with
      | .error e => .error e
      | .ok (ident, eaten, after_ident) =>
        match after_ident with
        | g1 :: more =>
          if g1 = ';' then
            let code := (strLookup method_lookup ident).getD method_lookup.length
            let method_lookup' :=
              if (strLookup method_lookup ident).isSome then method_lookup
              else method_lookup ++ [(ident, method_lookup.length)]
            emit (MooInst.call code, (pos, eaten + 2))
              (processAuxF fuel method_lookup' method_index (out_len + 1)
                (pos + 2 + eaten) current_def more)
          else .error "Expected semicolon after function call identifier"
        | [] => .error "Expected semicolon after function call identifier"
    else if c = '^' then
      emit (MooInst.metaJump, (pos, 1))
        (processAuxF fuel method_lookup method_index (out_len + 1) (pos + 1)
          current_def rest)
    else
      emit (MooInst.nop c, (pos, 1))
        (processAuxF fuel method_lookup method_index (out_len + 1) (pos + 1)
          current_def rest)

/-- `Runner::process`: compile a source character sequence into the
spanned instruction list and the subroutine table. -/
def process (source : List Char) :
    Except String (List SpannedInstruction × List (Nat × Nat)) :=
  processAuxF (source.length + 1) [] [] 0 0 none source

/-- The runner state (`struct Runner`): return stack, tape pointers,
active-tape flag, sparse ribbons, compiled program, instruction pointer,
halted flag, input/output and the subroutine table. -/
structure Runner where
  return_positions : List Nat
  pointer : Nat
  meta_pointer : Nat
  is_meta : Bool
  data_ribbon : List (Nat × Nat)
  meta_ribbon : List (Nat × Nat)
  program : List SpannedInstruction
  instruction_pointer : Nat
  halted : Bool
  input : String
  output : String
  method_index : List (Nat × Nat)
deriving DecidableEq, Repr

/-- Sparse ribbon read with the implicit `0` default
(`ribbon.get(&x).unwrap_or(&0)`). -/
def ribGetD (m : List (Nat × Nat)) (k : Nat) : Nat :=
  (assocGet m k).getD 0

/-- The initial-instruction scan shared by `Runner::new` and
`Runner::reset`: iterate over the program with a `silencer` flag that is
set by `FuncStart`, cleared by `FuncEnd` and ignores `Nop`; the first
other instruction seen with the silencer clear is the result, and `0` if
the scan never breaks.  Note the source initializes `silencer` to
`true`. -/
def findStartAux : Bool → Nat → List SpannedInstruction → Nat
  | _, _, [] => 0
  | silencer, pos, (inst, _) :: rest =>
    match inst with
    | .funcStart _ => findStartAux true (pos + 1) rest
    | .funcEnd _ => findStartAux false (pos + 1) rest
    | .nop _ => findStartAux silencer (pos + 1) rest
    | _ => if silencer then findStartAux silencer (pos + 1) rest else pos

/-- The initial instruction pointer computed by `Runner::new` and
`Runner::reset` (silencer initially `true`, index initially `0`). -/
def findStart (prog : List SpannedInstruction) : Nat :=
  findStartAux true 0 prog

/-- `Runner::new`: compile, locate the initial instruction pointer and
build the fresh state. -/
def Runner.new (source : List Char) : Except String Runner :=
  (process source).map fun pr =>
    { return_positions := []
      pointer := 0
      meta_pointer := 0
      is_meta := false
      data_ribbon := []
      meta_ribbon := []
      program := pr.1
      instruction_pointer := findStart pr.1
      halted := false
      input := ""
      output := ""
      method_index := pr.2 }

/-- `Runner::reset`: clear all run-time state, recompute the initial
instruction pointer from the (kept) program, keep the subroutine table. -/
def Runner.reset (r : Runner) : Runner :=
  { r with
      return_positions := []
      pointer := 0
      meta_pointer := 0
      is_meta := false
      halted := false
      data_ribbon := []
      meta_ribbon := []
      instruction_pointer := findStart r.program
      input := ""
      output := "" }

/-- `Runner::get_value`: the active tape's cell at the active pointer,
defaulting to 0. -/
def Runner.get_value (r : Runner) : Nat :=
  if r.is_meta then ribGetD r.meta_ribbon r.meta_pointer
  else ribGetD r.data_ribbon r.pointer

/-- `Runner::plus`: wrapping-increment the active cell (`u8` wraparound
becomes `% 256`). -/
def Runner.plus (r : Runner) : Runner :=
  if r.is_meta then
    let res := (ribGetD r.meta_ribbon r.meta_pointer + 1) % 256
    { r with meta_ribbon := assocInsert r.meta_ribbon r.meta_pointer res }
  else
    let res := (ribGetD r.data_ribbon r.pointer + 1) % 256
    { r with data_ribbon := assocInsert r.data_ribbon r.pointer res }

/-- `Runner::minus`: wrapping-decrement the active cell
(`wrapping_sub(1)` on a value below 256 is `(v + 255) % 256`). -/
def Runner.minus (r : Runner) : Runner :=
  if r.is_meta then
    let res := (ribGetD r.meta_ribbon r.meta_pointer + 255) % 256
    { r with meta_ribbon := assocInsert r.meta_ribbon r.meta_pointer res }
  else
    let res := (ribGetD r.data_ribbon r.pointer + 255) % 256
    { r with data_ribbon := assocInsert r.data_ribbon r.pointer res }

/-- `Runner::get_ribbon_around`: the `count` cells of the data ribbon in
the aligned block containing the data pointer (the source reads
`self.pointer` and `self.data_ribbon` unconditionally). -/
def Runner.get_ribbon_around (r : Runner) (count : Nat) : List Nat :=
  (List.range' (r.pointer / count * count) count).map fun x =>
    ribGetD r.data_ribbon x

/-- `Runner::jump_list`: the return stack, most recent first, optionally
capped. -/
def Runner.jump_list (r : Runner) (max_of : Option Nat) : List Nat :=
  r.return_positions.take (max_of.getD r.return_positions.length)

/-- The instruction (if any) at the instruction pointer
(`next_instruction` without the panicking unwrap). -/
def Runner.currentInst (r : Runner) : Option MooInst :=
  (r.program[r.instruction_pointer]?).map Prod.fst

/-- The run-time faults of the engine: the panicking `unwrap`s of the
source become distinct error values — `next_instruction` past the end of
the program, `retrieve_pointer` on an empty return stack, and a
`Call` id missing from `method_index`. -/
inductive Fault where
  | outOfBounds
  | emptyStack
  | missingMethod
deriving DecidableEq, Repr

/-- The trailing no-op pass of `Runner::step` (`while let Nop = ... ip += 1`),
returning the first non-`Nop` index at or after `ip`.  Fuel bounds the
iterations; `skipNops` supplies `length + 1`, which always suffices since
the index grows and an out-of-range index faults. -/
def skipNopsF : Nat → List SpannedInstruction → Nat → Except Fault Nat
  | 0, _, _ => .error .outOfBounds
  | fuel + 1, prog, ip =>
    match prog[ip]? with
    | none => .error .outOfBounds
    | some (inst, _) =>
      match inst with
      | .nop _ => skipNopsF fuel prog (ip + 1)
      | _ => .ok ip

/-- First non-`Nop` instruction index at or after `ip`. -/
def skipNops (prog : List SpannedInstruction) (ip : Nat) : Except Fault Nat :=
  skipNopsF (prog.length + 1) prog ip

/-- The zero-cell scan of the `OpenLoop` arm: repeatedly advance the
index, raising the depth on `OpenLoop` and lowering it on `CloseLoop`,
until the depth reaches zero; returns the index of the matching
`CloseLoop`. -/
def scanCloseF : Nat → List SpannedInstruction → Nat → Nat → Except Fault Nat
  | 0, _, _, _ => .error .outOfBounds
  | fuel + 1, prog, ip, varen =>
    if varen = 0 then .ok ip
    else
      match prog[ip + 1]? with
      | none => .error .outOfBounds
      | some (inst, _) =>
        match inst with
        | .openLoop => scanCloseF fuel prog (ip + 1) (varen + 1)
        | .closeLoop => scanCloseF fuel prog (ip + 1) (varen - 1)
        | _ => scanCloseF fuel prog (ip + 1) varen

/-- Index of the matching `CloseLoop`, scanning forward from `ip` with
initial nesting depth `varen`. -/
def scanClose (prog : List SpannedInstruction) (ip varen : Nat) :
    Except Fault Nat :=
  scanCloseF (prog.length + 1) prog ip varen

/-- The main `loop` of `Runner::step`: skip `Nop`s (each advancing the
instruction pointer) and perform the single semantic instruction found.
Fuel bounds the `Nop`-continue iterations exactly as in `skipNopsF`. -/
def stepLoopF : Nat → Runner → Except Fault Runner
  | 0, _ => .error .outOfBounds
  | fuel + 1, r =>
    match r.program[r.instruction_pointer]? with
    | none => .error .outOfBounds
    | some (inst, _) =>
      match inst with
      | .halt => .ok { r with halted := true }
      | .plus =>
        .ok { r.plus with instruction_pointer := r.instruction_pointer + 1 }
      | .minus =>
        .ok { r.minus with instruction_pointer := r.instruction_pointer + 1 }
      | .left =>
        if r.is_meta then
          .ok { r with meta_pointer := r.meta_pointer - 1,
                       instruction_pointer := r.instruction_pointer + 1 }
        else
          .ok { r with pointer := r.pointer - 1,
                       instruction_pointer := r.instruction_pointer + 1 }
      | .right =>
        if r.is_meta then
          .ok { r with meta_pointer := r.meta_pointer + 1,
                       instruction_pointer := r.instruction_pointer + 1 }
        else
          .ok { r with pointer := r.pointer + 1,
                       instruction_pointer := r.instruction_pointer + 1 }
      | .openLoop =>
        if r.get_value = 0 then
          (scanClose r.program r.instruction_pointer 1).map fun ipc =>
            { r with instruction_pointer := ipc + 1 }
        else
          .ok { r with
                  return_positions := r.instruction_pointer :: r.return_positions,
                  instruction_pointer := r.instruction_pointer + 1 }
      | .closeLoop =>
        match r.return_positions with
        | [] => .error .emptyStack
        | p :: rest =>
          .ok { r with return_positions := rest, instruction_pointer := p }
      | .out =>
        .ok { r with output := r.output.push (Char.ofNat r.get_value),
                     instruction_pointer := r.instruction_pointer + 1 }
      | .inp => .ok r
      | .call n =>
        match assocGet r.method_index n with
        | none => .error .missingMethod
        | some position =>
          .ok { r with
                  return_positions := r.instruction_pointer :: r.return_positions,
                  instruction_pointer := position }
      | .funcStart _ =>
        .ok { r with instruction_pointer := r.instruction_pointer + 1 }
      | .funcEnd _ =>
        match r.return_positions with
        | [] => .error .emptyStack
        | p :: rest =>
          .ok { r with return_positions := rest, instruction_pointer := p + 1 }
      | .nop _ =>
        stepLoopF fuel { r with instruction_pointer := r.instruction_pointer + 1 }
      | .metaJump =>
        .ok { r with is_meta := !r.is_meta,
                     instruction_pointer := r.instruction_pointer + 1 }

/-- The trailing no-op normalization of `Runner::step`, as a state
transformer. -/
def afterNops (r : Runner) : Except Fault Runner :=
  (skipNops r.program r.instruction_pointer).map fun ip =>
    { r with instruction_pointer := ip }

/-- `Runner::step`: one semantic instruction (skipping leading `Nop`s),
then advance past trailing `Nop`s. -/
def step (r : Runner) : Except Fault Runner :=
  (stepLoopF (r.program.length + 1) r).bind afterNops

/-- `n` consecutive calls to `step`, propagating faults. -/
def stepN : Nat → Runner → Except Fault Runner
  | 0, r => .ok r
  | n + 1, r => (step r).bind (stepN n)

/-- `Runner::is_halted`. -/
def Runner.is_halted (r : Runner) : Bool :=
  r.halted

end Moostar

deriving instance DecidableEq for Except

namespace Moostar

/-- Compile a source and run `n` steps from the fresh state.  A compile
failure is reported as a fault; the test sources below all compile. -/
def runFromSource (src : String) (n : Nat) : Except Fault Runner :=
  match Runner.new src.toList with
  | .ok r => stepN n r
  | .error _ => .error .outOfBounds

/-- Observation of a run result: instruction pointer, data cell 0, return
stack and halted flag. -/
def obsState (e : Except Fault Runner) :
    Except Fault (Nat × Nat × List Nat × Bool) :=
  e.map fun r =>
    (r.instruction_pointer, ribGetD r.data_ribbon 0, r.return_positions, r.halted)

/-- Observation of a run result: the instruction under the instruction
pointer. -/
def currentOf (e : Except Fault Runner) : Except Fault (Option MooInst) :=
  e.map Runner.currentInst

/-- Observation of a run result: the number of entries of the subroutine
table. -/
def methodCountOf (e : Except Fault Runner) : Except Fault Nat :=
  e.map fun r => r.method_index.length

/-- Stated from the spec (§4.2), for comparison with `findStart`: the
scan that treats only instructions between a `SubroutineStart` and its
matching `SubroutineEnd` as suppressed, i.e. the suppression flag starts
clear instead of set. -/
def firstLiveIndexSpec (prog : List SpannedInstruction) : Nat :=
  findStartAux false 0 prog

/-- The characters the compiler's scan dispatches on; every other
character becomes a `Literal` no-op. -/
def reservedChar (c : Char) : Bool :=
  c = '+' || c = '-' || c = '>' || c = '<' || c = '.' || c = ',' ||
    c = '[' || c = ']' || c = '(' || c = '}' || c = '~' || c = '^'

/-- UTF-8 encoding of one character, as its list of byte values. -/
def utf8Bytes (c : Char) : List Nat :=
  let n := c.toNat
  if n < 0x80 then [n]
  else if n < 0x800 then [0xC0 + n / 64, 0x80 + n % 64]
  else if n < 0x10000 then
    [0xE0 + n / 4096, 0x80 + (n / 64) % 64, 0x80 + n % 64]
  else
    [0xF0 + n / 262144, 0x80 + (n / 4096) % 64, 0x80 + (n / 64) % 64,
     0x80 + n % 64]

/-- UTF-8 encoding of a character sequence (the byte representation of
the source text a Rust `&str` slice operates on). -/
def utf8Encode (l : List Char) : List Nat :=
  (l.map utf8Bytes).flatten

/-- Byte-slicing with a `(offset, length)` span. -/
def sliceBytes (bytes : List Nat) (off len : Nat) : List Nat :=
  (bytes.drop off).take len

/-- The compiled state of `"+(f):{-}"`, as produced by `Runner.new`. -/
def c1state : Runner :=
  { return_positions := []
    pointer := 0
    meta_pointer := 0
    is_meta := false
    data_ribbon := []
    meta_ribbon := []
    program := [(MooInst.plus, (0, 1)), (MooInst.funcStart 0, (1, 5)),
                (MooInst.minus, (6, 1)), (MooInst.funcEnd 0, (7, 1)),
                (MooInst.halt, (8, 1))]
    instruction_pointer := 4
    halted := false
    input := ""
    output := ""
    method_index := [(0, 1)] }

/-- The state reached from `"^+"` after two steps: active tape toggled to
meta and meta cell 0 incremented. -/
def c2state : Runner :=
  { return_positions := []
    pointer := 0
    meta_pointer := 0
    is_meta := true
    data_ribbon := []
    meta_ribbon := [(0, 1)]
    program := [(MooInst.metaJump, (0, 1)), (MooInst.plus, (1, 1)),
                (MooInst.halt, (2, 1))]
    instruction_pointer := 2
    halted := false
    input := ""
    output := ""
    method_index := [] }

/-- The compiled state of `"+"`. -/
def plusRunner : Runner :=
  { return_positions := []
    pointer := 0
    meta_pointer := 0
    is_meta := false
    data_ribbon := []
    meta_ribbon := []
    program := [(MooInst.plus, (0, 1)), (MooInst.halt, (1, 1))]
    instruction_pointer := 0
    halted := false
    input := ""
    output := ""
    method_index := [] }

/-- The state of `"+"` after one step. -/
def plusRunnerAfter : Runner :=
  { plusRunner with data_ribbon := [(0, 1)], instruction_pointer := 1 }

/-- The compiled state of `","` (a lone `ReadInput`). -/
def commaRunner : Runner :=
  { plusRunner with program := [(MooInst.inp, (0, 1)), (MooInst.halt, (1, 1))] }

/-- A state resting on the `Halt` sentinel with the halted flag set. -/
def haltedRunner : Runner :=
  { plusRunner with program := [(MooInst.halt, (0, 1))], halted := true }

/-- The compiled state of `"]"` (a stray `LoopEnd`, empty return stack). -/
def closeLoopRunner : Runner :=
  { plusRunner with
      program := [(MooInst.closeLoop, (0, 1)), (MooInst.halt, (1, 1))] }

/-- A state resting on a `SubroutineEnd` with an empty return stack. -/
def funcEndFaultRunner : Runner :=
  { plusRunner with
      program := [(MooInst.funcEnd 0, (0, 1)), (MooInst.halt, (1, 1))] }

/-- The compiled state of `"~f;"`: a call to a subroutine id that was
never defined, so absent from the subroutine table. -/
def callFaultRunner : Runner :=
  { plusRunner with
      program := [(MooInst.call 0, (0, 3)), (MooInst.halt, (3, 1))] }

/-- A state resting on a `LoopEnd` with a singleton return stack. -/
def loopWitnessRunner : Runner :=
  { closeLoopRunner with return_positions := [0] }

/-- A state resting on a `CallSubroutine` whose id is in the table. -/
def callWitnessRunner : Runner :=
  { plusRunner with
      program := [(MooInst.funcStart 0, (0, 1)), (MooInst.funcEnd 0, (1, 1)),
                  (MooInst.call 0, (2, 1)), (MooInst.halt, (3, 1))]
      instruction_pointer := 2
      method_index := [(0, 0)] }

/-- A runtime state over the `"+"` program with stale run-time fields
(reset must erase them). -/
def detRunnerA : Runner :=
  { plusRunner with pointer := 3, halted := true, output := "x" }

/-- Another runtime state over the `"+"` program with different stale
run-time fields. -/
def detRunnerB : Runner :=
  { plusRunner with data_ribbon := [(2, 9)], is_meta := true }

/-- The invariant of the compiler scan: every emitted `Literal`'s span is
`(p, 1)` with `p` a character offset at least `pos` pointing, within the
remaining input, at exactly that character. -/
def NopSpansOk (pos : Nat) (cs : List Char) (l : List SpannedInstruction) : Prop :=
  ∀ (i : Nat) (c : Char) (p len : Nat),
    l[i]? = some (MooInst.nop c, (p, len)) →
    len = 1 ∧ pos ≤ p ∧ cs[p - pos]? = some c

end Moostar

namespace Moostar

lemma skipNops_eq_self {prog : List SpannedInstruction} {ip : Nat} {inst : MooInst}
    {sp : Nat × Nat} (h : prog[ip]? = some (inst, sp))
    (hn : ∀ c, inst ≠ MooInst.nop c) : skipNops prog ip = .ok ip := by
  unfold skipNops
  simp only [skipNopsF, h]

lemma afterNops_of_not_nop {r : Runner} {inst : MooInst} {sp : Nat × Nat}
    (h : r.program[r.instruction_pointer]? = some (inst, sp))
    (hn : ∀ c, inst ≠ MooInst.nop c) : afterNops r = .ok r := by
  unfold afterNops
  rw [skipNops_eq_self h hn]
  simp only [Except.map]

lemma currentInst_some {r : Runner} {inst : MooInst}
    (h : r.currentInst = some inst) :
    ∃ sp, r.program[r.instruction_pointer]? = some (inst, sp) := by
  unfold Runner.currentInst at h
  cases hg : r.program[r.instruction_pointer]? with
  | none => rw [hg] at h; simp at h
  | some q =>
    rw [hg] at h
    cases q with
    | mk i s =>
      simp at h
      exact ⟨s, by rw [h]⟩

lemma assocGet_assocInsert_self (m : List (Nat × Nat)) (k v : Nat) :
    assocGet (assocInsert m k v) k = some v := by
  induction m with
  | nil => simp [assocInsert, assocGet]
  | cons hd tl ih =>
    obtain ⟨k', v'⟩ := hd
    by_cases h : k' = k
    · subst h; simp [assocInsert, assocGet]
    · unfold assocGet at ih ⊢
      simp only [assocInsert, if_neg h]
      rw [List.find?_cons_of_neg]
      · exact ih
      · simp [h]

lemma plus_get_value (r : Runner) :
    (Runner.plus r).get_value = (r.get_value + 1) % 256 := by
  unfold Runner.plus Runner.get_value ribGetD
  by_cases h : r.is_meta <;> simp [h, assocGet_assocInsert_self]

lemma minus_get_value (r : Runner) :
    (Runner.minus r).get_value = (r.get_value + 255) % 256 := by
  unfold Runner.minus Runner.get_value ribGetD
  by_cases h : r.is_meta <;> simp [h, assocGet_assocInsert_self]

lemma dropWhile_eq_drop {α : Type} (p : α → Bool) (l : List α) :
    l.dropWhile p = l.drop (l.takeWhile p).length := by
  induction l with
  | nil => rfl
  | cons a l ih =>
    by_cases h : p a
    · simp [List.dropWhile_cons, List.takeWhile_cons, h, ih]
    · simp [List.dropWhile_cons, List.takeWhile_cons, h]

lemma fetch_identifier_rest_eq {cs : List Char} {id : String} {eaten : Nat}
    {rest : List Char} (h : fetch_identifier cs = .ok (id, eaten, rest)) :
    rest = cs.drop eaten := by
  simp only [fetch_identifier] at h
  split at h
  next => exact Except.noConfusion h
  next =>
    split at h
    next =>
      simp only [Except.ok.injEq, Prod.mk.injEq] at h
      obtain ⟨-, heaten, hrest⟩ := h
      subst heaten hrest
      simp only [dropWhile_eq_drop, List.drop_drop]
    next => exact Except.noConfusion h

lemma emit_ok {ins : SpannedInstruction}
    {k : Except String (List SpannedInstruction × List (Nat × Nat))}
    {l : List SpannedInstruction} {mi : List (Nat × Nat)}
    (h : emit ins k = .ok (l, mi)) :
    ∃ l', k = .ok (l', mi) ∧ l = ins :: l' := by
  cases k with
  | error e => simp [emit, Except.map] at h
  | ok pr =>
    obtain ⟨l', mi'⟩ := pr
    simp only [emit, Except.map, Except.ok.injEq, Prod.mk.injEq] at h
    exact ⟨l', by rw [h.2], h.1.symm⟩

lemma lift_index {src : List Char} {consumed pos p m : Nat} {c : Char}
    (hm : consumed + m = p - pos)
    (hcs : (src.drop consumed)[m]? = some c) :
    src[p - pos]? = some c := by
  rw [List.getElem?_drop] at hcs
  rwa [hm] at hcs

lemma span_branch_one {f : Nat}
    (IH : ∀ (lk : List (String × Nat)) (ix : List (Nat × Nat)) (ol pos : Nat)
        (cd : Option Nat) (cs : List Char) (l : List SpannedInstruction)
        (mi : List (Nat × Nat)),
        processAuxF f lk ix ol pos cd cs = .ok (l, mi) → NopSpansOk pos cs l)
    {lk : List (String × Nat)} {ix : List (Nat × Nat)} {ol pos : Nat}
    {cd : Option Nat} {c0 : Char} {rest : List Char}
    {l : List SpannedInstruction} {mi : List (Nat × Nat)}
    {I : MooInst} {sp : Nat × Nat}
    (hne : ∀ ch, I ≠ MooInst.nop ch)
    (h : emit (I, sp) (processAuxF f lk ix (ol + 1) (pos + 1) cd rest) = .ok (l, mi)) :
    NopSpansOk pos (c0 :: rest) l := by
  obtain ⟨l', hrec, hl⟩ := emit_ok h
  subst hl
  intro i c p len hget
  cases i with
  | zero =>
    simp only [List.getElem?_cons_zero, Option.some.injEq, Prod.mk.injEq] at hget
    exact absurd hget.1 (hne c)
  | succ j =>
    rw [List.getElem?_cons_succ] at hget
    obtain ⟨hlen, hp, hcs⟩ := IH _ _ _ _ _ _ _ _ hrec j c p len hget
    refine ⟨hlen, by omega, ?_⟩
    have hrest : rest = (c0 :: rest).drop 1 := rfl
    rw [hrest] at hcs
    exact lift_index (by omega) hcs

lemma span_branch_nop {f : Nat}
    (IH : ∀ (lk : List (String × Nat)) (ix : List (Nat × Nat)) (ol pos : Nat)
        (cd : Option Nat) (cs : List Char) (l : List SpannedInstruction)
        (mi : List (Nat × Nat)),
        processAuxF f lk ix ol pos cd cs = .ok (l, mi) → NopSpansOk pos cs l)
    {lk : List (String × Nat)} {ix : List (Nat × Nat)} {ol pos : Nat}
    {cd : Option Nat} {c0 : Char} {rest : List Char}
    {l : List SpannedInstruction} {mi : List (Nat × Nat)}
    (h : emit (MooInst.nop c0, (pos, 1))
        (processAuxF f lk ix (ol + 1) (pos + 1) cd rest) = .ok (l, mi)) :
    NopSpansOk pos (c0 :: rest) l := by
  obtain ⟨l', hrec, hl⟩ := emit_ok h
  subst hl
  intro i c p len hget
  cases i with
  | zero =>
    simp only [List.getElem?_cons_zero, Option.some.injEq, Prod.mk.injEq,
      MooInst.nop.injEq] at hget
    obtain ⟨hc, hp, hlen⟩ := hget
    subst hc hp hlen
    simp
  | succ j =>
    rw [List.getElem?_cons_succ] at hget
    obtain ⟨hlen, hp, hcs⟩ := IH _ _ _ _ _ _ _ _ hrec j c p len hget
    refine ⟨hlen, by omega, ?_⟩
    have hrest : rest = (c0 :: rest).drop 1 := rfl
    rw [hrest] at hcs
    exact lift_index (by omega) hcs

lemma processAuxF_nop_spans :
    ∀ (fuel : Nat) (lk : List (String × Nat)) (ix : List (Nat × Nat))
      (ol pos : Nat) (cd : Option Nat) (cs : List Char)
      (l : List SpannedInstruction) (mi : List (Nat × Nat)),
      processAuxF fuel lk ix ol pos cd cs = .ok (l, mi) →
      NopSpansOk pos cs l := by
  intro fuel
  induction fuel with
  | zero =>
    intro lk ix ol pos cd cs l mi h
    exact absurd h (by simp [processAuxF])
  | succ f ih =>
    intro lk ix ol pos cd cs l mi h
    cases cs with
    | nil =>
      simp only [processAuxF, Except.ok.injEq, Prod.mk.injEq] at h
      obtain ⟨hl, -⟩ := h
      subst hl
      intro i c p len hget
      cases i with
      | zero => simp at hget
      | succ j => simp at hget
    | cons c0 rest =>
      simp only [processAuxF] at h
      by_cases h1 : c0 = '+'
      · rw [if_pos h1] at h
        exact span_branch_one ih (by simp) h
      rw [if_neg h1] at h
      by_cases h2 : c0 = '-'
      · rw [if_pos h2] at h
        exact span_branch_one ih (by simp) h
      rw [if_neg h2] at h
      by_cases h3 : c0 = '>'
      · rw [if_pos h3] at h
        exact span_branch_one ih (by simp) h
      rw [if_neg h3] at h
      by_cases h4 : c0 = '<'
      · rw [if_pos h4] at h
        exact span_branch_one ih (by simp) h
      rw [if_neg h4] at h
      by_cases h5 : c0 = '.'
      · rw [if_pos h5] at h
        exact span_branch_one ih (by simp) h
      rw [if_neg h5] at h
      by_cases h6 : c0 = ','
      · rw [if_pos h6] at h
        exact span_branch_one ih (by simp) h
      rw [if_neg h6] at h
      by_cases h7 : c0 = '['
      · rw [if_pos h7] at h
        exact span_branch_one ih (by simp) h
      rw [if_neg h7] at h
      by_cases h8 : c0 = ']'
      · rw [if_pos h8] at h
        exact span_branch_one ih (by simp) h
      rw [if_neg h8] at h
      by_cases h9 : c0 = '('
      · rw [if_pos h9] at h
        by_cases hcd : cd.isSome
        · rw [if_pos hcd] at h
          exact Except.noConfusion h
        rw [if_neg hcd] at h
        cases hfetch : fetch_identifier rest with
        | error e =>
          rw [hfetch] at h
          exact Except.noConfusion h
        | ok tri =>
          obtain ⟨ident, eaten, after_ident⟩ := tri
          rw [hfetch] at h
          cases after_ident with
          | nil => exact Except.noConfusion h
          | cons g1 t1 =>
            cases t1 with
            | nil => exact Except.noConfusion h
            | cons g2 t2 =>
              cases t2 with
              | nil => exact Except.noConfusion h
              | cons g3 body =>
                dsimp only [] at h
                by_cases hg : g1 = ')' ∧ g2 = ':' ∧ g3 = '{'
                · rw [if_pos hg] at h
                  obtain ⟨l', hrec, hl⟩ := emit_ok h
                  subst hl
                  intro i c p len hget
                  cases i with
                  | zero => simp at hget
                  | succ j =>
                    rw [List.getElem?_cons_succ] at hget
                    obtain ⟨hlen, hp, hcs⟩ := ih _ _ _ _ _ _ _ _ hrec j c p len hget
                    refine ⟨hlen, by omega, ?_⟩
                    have hafter : g1 :: g2 :: g3 :: body = rest.drop eaten :=
                      fetch_identifier_rest_eq hfetch
                    have hbody : body = (c0 :: rest).drop (4 + eaten) := by
                      have hb : body = (g1 :: g2 :: g3 :: body).drop 3 := rfl
                      rw [hb, hafter, List.drop_drop]
                      have h4e : 4 + eaten = (eaten + 3) + 1 := by omega
                      rw [h4e, List.drop_succ_cons]
                    rw [hbody] at hcs
                    exact lift_index (by omega) hcs
                · rw [if_neg hg] at h
                  exact Except.noConfusion h
      rw [if_neg h9] at h
      by_cases h10 : c0 = '}'
      · rw [if_pos h10] at h
        cases cd with
        | none => exact Except.noConfusion h
        | some cur => exact span_branch_one ih (by simp) h
      rw [if_neg h10] at h
      by_cases h11 : c0 = '~'
      · rw [if_pos h11] at h
        cases hfetch : fetch_identifier rest with
        | error e =>
          rw [hfetch] at h
          exact Except.noConfusion h
        | ok tri =>
          obtain ⟨ident, eaten, after_ident⟩ := tri
          rw [hfetch] at h
          cases after_ident with
          | nil => exact Except.noConfusion h
          | cons g1 more =>
            dsimp only [] at h
            by_cases hg : g1 = ';'
            · rw [if_pos hg] at h
              obtain ⟨l', hrec, hl⟩ := emit_ok h
              subst hl
              intro i c p len hget
              cases i with
              | zero => simp at hget
              | succ j =>
                rw [List.getElem?_cons_succ] at hget
                obtain ⟨hlen, hp, hcs⟩ := ih _ _ _ _ _ _ _ _ hrec j c p len hget
                refine ⟨hlen, by omega, ?_⟩
                have hafter : g1 :: more = rest.drop eaten :=
                  fetch_identifier_rest_eq hfetch
                have hmore : more = (c0 :: rest).drop (2 + eaten) := by
                  have hb : more = (g1 :: more).drop 1 := rfl
                  rw [hb, hafter, List.drop_drop]
                  have h2e : 2 + eaten = (eaten + 1) + 1 := by omega
                  rw [h2e, List.drop_succ_cons]
                rw [hmore] at hcs
                exact lift_index (by omega) hcs
            · rw [if_neg hg] at h
              exact Except.noConfusion h
      rw [if_neg h11] at h
      by_cases h12 : c0 = '^'
      · rw [if_pos h12] at h
        exact span_branch_one ih (by simp) h
      rw [if_neg h12] at h
      exact span_branch_nop ih h

lemma take_one_of_getElem? {α : Type} {k : List α} {a : α}
    (h : k[0]? = some a) : k.take 1 = [a] := by
  cases k with
  | nil => simp at h
  | cons b t => simp_all

lemma processAuxF_nonreserved (f : Nat) (lk : List (String × Nat))
    (ix : List (Nat × Nat)) (ol pos : Nat) (cd : Option Nat) (c : Char)
    (cs : List Char) (hc : reservedChar c = false) :
    processAuxF (f + 1) lk ix ol pos cd (c :: cs) =
      emit (MooInst.nop c, (pos, 1))
        (processAuxF f lk ix (ol + 1) (pos + 1) cd cs) := by
  simp only [reservedChar, Bool.or_eq_false_iff, decide_eq_false_iff_not] at hc
  obtain ⟨⟨⟨⟨⟨⟨⟨⟨⟨⟨⟨hc1, hc2⟩, hc3⟩, hc4⟩, hc5⟩, hc6⟩, hc7⟩, hc8⟩, hc9⟩, hc10⟩, hc11⟩, hc12⟩ := hc
  simp only [processAuxF, if_neg hc1, if_neg hc2, if_neg hc3, if_neg hc4,
    if_neg hc5, if_neg hc6, if_neg hc7, if_neg hc8, if_neg hc9, if_neg hc10,
    if_neg hc11, if_neg hc12]

/-- C1 is violated by the code: compiling `"+(f):{-}"` sets the initial
instruction pointer to 4 (the Halt sentinel), although instruction 0 is a
live `Increment` outside every subroutine body, which the spec's scan
rule (`firstLiveIndexSpec`) selects; `reset` recomputes the same 4. -/
theorem initial_pointer_bug :
    Runner.new (String.toList "+(f):{-}") = .ok c1state ∧
      c1state.instruction_pointer = 4 ∧
      c1state.program[4]? = some (MooInst.halt, (8, 1)) ∧
      c1state.program[0]? = some (MooInst.plus, (0, 1)) ∧
      firstLiveIndexSpec c1state.program = 0 ∧
      (Runner.reset c1state).instruction_pointer = 4 := by
  decide

/-- C2 as stated is false: with the meta tape active and meta cell 0 at 1,
the ribbon query still returns the data tape's cells. -/
theorem ribbon_window_counterexample :
    runFromSource "^+" 2 = .ok c2state ∧
      c2state.is_meta = true ∧
      ribGetD c2state.meta_ribbon c2state.meta_pointer = 1 ∧
      c2state.get_ribbon_around 1 = [0] := by
  decide

/-- C2 amended: the ribbon window always reads the data tape around the
data pointer: it has length `n`, its cells come from the aligned block
starting at `pointer / n * n` with absent cells as 0, and that block
contains the data pointer. -/
theorem ribbon_window_amended (r : Runner) (n : Nat) (hn : 0 < n) :
    (r.get_ribbon_around n).length = n ∧
      (∀ i, i < n →
        (r.get_ribbon_around n)[i]? =
          some (ribGetD r.data_ribbon (r.pointer / n * n + i))) ∧
      r.pointer / n * n ≤ r.pointer ∧
      r.pointer < r.pointer / n * n + n := by
  refine ⟨?_, ?_, ?_, ?_⟩
  · simp [Runner.get_ribbon_around]
  · intro i hi
    unfold Runner.get_ribbon_around
    rw [List.getElem?_map, List.getElem?_range' _ _ hi]
    simp [Nat.one_mul]
  · exact Nat.div_mul_le_self r.pointer n
  · have h1 : r.pointer % n < n := Nat.mod_lt _ hn
    have h2 : n * (r.pointer / n) + r.pointer % n = r.pointer := Nat.div_add_mod _ _
    have h3 : r.pointer / n * n = n * (r.pointer / n) := Nat.mul_comm _ _
    omega

theorem ribbon_window_amended_witness :
    (c2state.get_ribbon_around 2).length = 2 ∧
      c2state.pointer / 2 * 2 ≤ c2state.pointer :=
  ⟨(ribbon_window_amended c2state 2 (by decide)).1,
   (ribbon_window_amended c2state 2 (by decide)).2.2.1⟩

/-- C3 amended: spans of `Literal` no-ops are measured in characters, not
bytes: a non-reserved character scanned at character offset `pos` emits
`Literal` with span `(pos, 1)`, and in every successfully compiled
program every `Literal`'s span `(p, 1)` points in the source's character
sequence at exactly its character, multi-byte or not. -/
theorem literal_spans_amended :
    (∀ (f : Nat) (lk : List (String × Nat)) (ix : List (Nat × Nat))
        (ol pos : Nat) (cd : Option Nat) (c : Char) (cs : List Char),
        reservedChar c = false →
        processAuxF (f + 1) lk ix ol pos cd (c :: cs) =
          emit (MooInst.nop c, (pos, 1))
            (processAuxF f lk ix (ol + 1) (pos + 1) cd cs)) ∧
    (∀ (source : List Char) (prog : List SpannedInstruction)
        (mi : List (Nat × Nat)),
        process source = .ok (prog, mi) →
        ∀ (i : Nat) (c : Char) (p len : Nat),
          prog[i]? = some (MooInst.nop c, (p, len)) →
          len = 1 ∧ source[p]? = some c ∧ (source.drop p).take 1 = [c]) := by
  constructor
  · intro f lk ix ol pos cd c cs hc
    exact processAuxF_nonreserved f lk ix ol pos cd c cs hc
  · intro source prog mi h i c p len hget
    obtain ⟨hlen, -, hcs⟩ :=
      processAuxF_nop_spans (source.length + 1) [] [] 0 0 none source prog mi h
        i c p len hget
    rw [Nat.sub_zero] at hcs
    refine ⟨hlen, hcs, take_one_of_getElem? ?_⟩
    rw [List.getElem?_drop]
    simpa using hcs

theorem literal_spans_amended_witness :
    1 = 1 ∧ (String.toList "aé+")[1]? = some 'é' ∧
      ((String.toList "aé+").drop 1).take 1 = ['é'] :=
  literal_spans_amended.2 (String.toList "aé+")
    [(MooInst.nop 'a', (0, 1)), (MooInst.nop 'é', (1, 1)),
     (MooInst.plus, (2, 1)), (MooInst.halt, (3, 1))] [] (by decide)
    1 'é' 1 1 (by decide)

/-- C3 as stated is false: the compiler counts span offsets and lengths
in characters, so for the two-byte character `'é'` the span `(0, 1)`
taken as a byte slice of the UTF-8 source text yields a single byte, not
the character's two-byte encoding. -/
theorem literal_spans_counterexample :
    process (String.toList "é") =
      .ok ([(MooInst.nop 'é', (0, 1)), (MooInst.halt, (1, 1))], []) ∧
      utf8Bytes 'é' = [195, 169] ∧
      sliceBytes (utf8Encode (String.toList "é")) 0 1 = [195] ∧
      sliceBytes (utf8Encode (String.toList "é")) 0 1 ≠ utf8Bytes 'é' := by
  decide

/-- C4 amended: LoopStart on a zero cell scans to the matching LoopEnd by
nesting depth and resumes one past it leaving the return stack untouched;
on a non-zero cell it pushes its own index and advances; LoopEnd pops and
jumps to the popped value; `"+[-]"` needs steps 4–6 to return to the
LoopStart, skip to Halt and halt, ending with cell 0 = 0. -/
theorem loop_semantics_amended :
    (∀ (r : Runner) (sp : Nat × Nat),
        r.program[r.instruction_pointer]? = some (MooInst.openLoop, sp) →
        r.get_value = 0 →
        step r =
          (scanClose r.program r.instruction_pointer 1).bind fun ipc =>
            afterNops { r with instruction_pointer := ipc + 1 }) ∧
    (∀ (r : Runner) (sp : Nat × Nat),
        r.program[r.instruction_pointer]? = some (MooInst.openLoop, sp) →
        r.get_value ≠ 0 →
        step r =
          afterNops
            { r with
                return_positions := r.instruction_pointer :: r.return_positions,
                instruction_pointer := r.instruction_pointer + 1 }) ∧
    (∀ (r : Runner) (p : Nat) (rest : List Nat) (sp : Nat × Nat),
        r.program[r.instruction_pointer]? = some (MooInst.closeLoop, sp) →
        r.return_positions = p :: rest →
        step r =
          afterNops { r with return_positions := rest, instruction_pointer := p }) ∧
    obsState (runFromSource "+[-]" 1) = .ok (1, 1, [], false) ∧
    obsState (runFromSource "+[-]" 2) = .ok (2, 1, [1], false) ∧
    obsState (runFromSource "+[-]" 3) = .ok (3, 0, [1], false) ∧
    obsState (runFromSource "+[-]" 4) = .ok (1, 0, [], false) ∧
    obsState (runFromSource "+[-]" 5) = .ok (4, 0, [], false) ∧
    currentOf (runFromSource "+[-]" 5) = .ok (some MooInst.halt) ∧
    obsState (runFromSource "+[-]" 6) = .ok (4, 0, [], true) ∧
    obsState (runFromSource "+[-]" 7) = .ok (4, 0, [], true) := by
  refine ⟨fun r sp h hz => ?_, fun r sp h hz => ?_, fun r p rest sp h hs => ?_,
    by decide, by decide, by decide, by decide, by decide, by decide,
    by decide, by decide⟩
  · unfold step
    simp only [stepLoopF, h, hz, if_pos rfl]
    cases hsc : scanClose r.program r.instruction_pointer 1 <;>
      simp [Except.bind, Except.map, hsc]
  · unfold step
    simp only [stepLoopF, h, if_neg hz, Except.bind]
  · unfold step
    simp only [stepLoopF, h, hs, Except.bind]

theorem loop_semantics_amended_witness :
    step loopWitnessRunner =
      afterNops
        { loopWitnessRunner with
            return_positions := [], instruction_pointer := 0 } :=
  loop_semantics_amended.2.2.1 loopWitnessRunner 0 [] (0, 1) rfl rfl

/-- C4 as stated is false: after 4 steps of `"+[-]"` the instruction
pointer is back on the LoopStart (index 1), not on Halt, and the run is
not yet halted. -/
theorem loop_walkthrough_counterexample :
    obsState (runFromSource "+[-]" 4) = .ok (1, 0, [], false) ∧
      currentOf (runFromSource "+[-]" 4) = .ok (some MooInst.openLoop) ∧
      currentOf (runFromSource "+[-]" 4) ≠ .ok (some MooInst.halt) := by
  decide

/-- C5: CallSubroutine pushes its own index and jumps to the recorded
position; SubroutineEnd pops and resumes one past the popped value; the
double-call program registers one subroutine id, starts at the first
call, returns just past each call site, applies four increments and
halts. -/
theorem subroutine_semantics :
    (∀ (r : Runner) (n pos : Nat) (sp : Nat × Nat),
        r.program[r.instruction_pointer]? = some (MooInst.call n, sp) →
        assocGet r.method_index n = some pos →
        step r =
          afterNops
            { r with
                return_positions := r.instruction_pointer :: r.return_positions,
                instruction_pointer := pos }) ∧
    (∀ (r : Runner) (k p : Nat) (rest : List Nat) (sp : Nat × Nat),
        r.program[r.instruction_pointer]? = some (MooInst.funcEnd k, sp) →
        r.return_positions = p :: rest →
        step r =
          afterNops
            { r with return_positions := rest, instruction_pointer := p + 1 }) ∧
    methodCountOf (runFromSource "(double):{++}~double;~double;" 0) = .ok 1 ∧
    obsState (runFromSource "(double):{++}~double;~double;" 0) = .ok (4, 0, [], false) ∧
    currentOf (runFromSource "(double):{++}~double;~double;" 0) = .ok (some (MooInst.call 0)) ∧
    obsState (runFromSource "(double):{++}~double;~double;" 1) = .ok (0, 0, [4], false) ∧
    obsState (runFromSource "(double):{++}~double;~double;" 5) = .ok (5, 2, [], false) ∧
    obsState (runFromSource "(double):{++}~double;~double;" 6) = .ok (0, 2, [5], false) ∧
    obsState (runFromSource "(double):{++}~double;~double;" 10) = .ok (6, 4, [], false) ∧
    obsState (runFromSource "(double):{++}~double;~double;" 11) = .ok (6, 4, [], true) ∧
    obsState (runFromSource "(double):{++}~double;~double;" 12) = .ok (6, 4, [], true) := by
  refine ⟨fun r n pos sp h hm => ?_, fun r k p rest sp h hs => ?_,
    by decide, by decide, by decide, by decide, by decide, by decide,
    by decide, by decide, by decide⟩
  · unfold step
    simp only [stepLoopF, h, hm, Except.bind]
  · unfold step
    simp only [stepLoopF, h, hs, Except.bind]

theorem subroutine_semantics_witness :
    step callWitnessRunner =
      afterNops
        { callWitnessRunner with
            return_positions := [2], instruction_pointer := 0 } :=
  subroutine_semantics.1 callWitnessRunner 0 0 (2, 1) rfl rfl

/-- C6: once the halted flag is set and the instruction pointer rests on
the `Halt` sentinel, every further `step` leaves the whole state
unchanged. -/
theorem halted_step_fixed (r : Runner) (h1 : r.halted = true)
    (h2 : r.currentInst = some MooInst.halt) :
    ∀ n : Nat, stepN n r = .ok r := by
  obtain ⟨sp, hsp⟩ := currentInst_some h2
  have hone : step r = .ok r := by
    unfold step
    simp only [stepLoopF, hsp]
    have he : ({ r with halted := true } : Runner) = r := by
      cases r; simp_all
    rw [he]
    simp only [Except.bind]
    exact afterNops_of_not_nop hsp (by intro c hc; cases hc)
  intro n
  induction n with
  | zero => rfl
  | succ n ih =>
    show (step r).bind (stepN n) = .ok r
    rw [hone]
    exact ih

theorem halted_step_fixed_witness : stepN 3 haltedRunner = .ok haltedRunner :=
  halted_step_fixed haltedRunner rfl rfl 3

/-- C7: Increment and Decrement rewrite the active cell modulo 256 with
absent cells read as 0, advance the instruction pointer by one (followed
by the step contract's trailing no-op pass), and `"+"` compiles to
(Increment, Halt) with one step setting data cell 0 to 1 on the data
tape. -/
theorem increment_semantics :
    (∀ (r : Runner) (sp : Nat × Nat),
        r.program[r.instruction_pointer]? = some (MooInst.plus, sp) →
        step r =
          afterNops
            { r.plus with instruction_pointer := r.instruction_pointer + 1 }) ∧
    (∀ (r : Runner) (sp : Nat × Nat),
        r.program[r.instruction_pointer]? = some (MooInst.minus, sp) →
        step r =
          afterNops
            { r.minus with instruction_pointer := r.instruction_pointer + 1 }) ∧
    (∀ r : Runner, (Runner.plus r).get_value = (r.get_value + 1) % 256) ∧
    (∀ r : Runner, (Runner.minus r).get_value = (r.get_value + 255) % 256) ∧
    (∀ r : Runner,
        (Runner.plus r).is_meta = r.is_meta ∧
          (Runner.plus r).pointer = r.pointer ∧
          (Runner.plus r).meta_pointer = r.meta_pointer) ∧
    Runner.new (String.toList "+") = .ok plusRunner ∧
    plusRunner.program = [(MooInst.plus, (0, 1)), (MooInst.halt, (1, 1))] ∧
    step plusRunner = .ok plusRunnerAfter ∧
    ribGetD plusRunnerAfter.data_ribbon 0 = 1 ∧
    plusRunnerAfter.is_meta = false := by
  refine ⟨fun r sp h => ?_, fun r sp h => ?_, plus_get_value, minus_get_value,
    fun r => ?_, by decide, by decide, by decide, by decide, by decide⟩
  · unfold step
    simp only [stepLoopF, h, Except.bind]
  · unfold step
    simp only [stepLoopF, h, Except.bind]
  · by_cases h : r.is_meta <;> simp [Runner.plus, h]

theorem increment_semantics_witness :
    step plusRunner =
      afterNops { Runner.plus plusRunner with instruction_pointer := 1 } :=
  increment_semantics.1 plusRunner (0, 1) rfl

/-- C8: a `LoopEnd` or `SubroutineEnd` with an empty return stack, and a
`CallSubroutine` with an id absent from the subroutine table, each fault
with a distinct error instead of continuing. -/
theorem runtime_structural_faults :
    (∀ (r : Runner) (sp : Nat × Nat),
        r.program[r.instruction_pointer]? = some (MooInst.closeLoop, sp) →
        r.return_positions = [] → step r = .error Fault.emptyStack) ∧
    (∀ (r : Runner) (k : Nat) (sp : Nat × Nat),
        r.program[r.instruction_pointer]? = some (MooInst.funcEnd k, sp) →
        r.return_positions = [] → step r = .error Fault.emptyStack) ∧
    (∀ (r : Runner) (n : Nat) (sp : Nat × Nat),
        r.program[r.instruction_pointer]? = some (MooInst.call n, sp) →
        assocGet r.method_index n = none → step r = .error Fault.missingMethod) := by
  refine ⟨fun r sp h hs => ?_, fun r k sp h hs => ?_, fun r n sp h hs => ?_⟩ <;>
    (unfold step; simp only [stepLoopF, h, hs, Except.bind])

theorem runtime_structural_faults_witness :
    step closeLoopRunner = .error Fault.emptyStack ∧
      step funcEndFaultRunner = .error Fault.emptyStack ∧
      step callFaultRunner = .error Fault.missingMethod :=
  ⟨runtime_structural_faults.1 closeLoopRunner (0, 1) rfl rfl,
   runtime_structural_faults.2.1 funcEndFaultRunner 0 (0, 1) rfl rfl,
   runtime_structural_faults.2.2 callFaultRunner 0 (0, 3) rfl rfl⟩

/-- C9: resetting erases all run-time state, so two runners over the same
compiled program reach identical states after the same number of steps. -/
theorem deterministic_replay (r1 r2 : Runner) (n : Nat)
    (hp : r1.program = r2.program) (hm : r1.method_index = r2.method_index) :
    stepN n r1.reset = stepN n r2.reset := by
  have h : r1.reset = r2.reset := by
    cases r1; cases r2; simp_all [Runner.reset]
  rw [h]

theorem deterministic_replay_witness :
    stepN 3 detRunnerA.reset = stepN 3 detRunnerB.reset :=
  deterministic_replay detRunnerA detRunnerB 3 rfl rfl

/-- C10: a `ReadInput` instruction is inert including the instruction
pointer. -/
theorem readinput_step_fixed (r : Runner)
    (h : r.currentInst = some MooInst.inp) :
    ∀ n : Nat, stepN n r = .ok r := by
  obtain ⟨sp, hsp⟩ := currentInst_some h
  have hone : step r = .ok r := by
    unfold step
    simp only [stepLoopF, hsp]
    simp only [Except.bind]
    exact afterNops_of_not_nop hsp (by intro c hc; cases hc)
  intro n
  induction n with
  | zero => rfl
  | succ n ih =>
    show (step r).bind (stepN n) = .ok r
    rw [hone]
    exact ih

theorem readinput_step_fixed_witness :
    Runner.new (String.toList ",") = .ok commaRunner ∧
      stepN 5 commaRunner = .ok commaRunner :=
  ⟨by decide, readinput_step_fixed commaRunner rfl 5⟩

end Moostar
